import Mathlib

/-!
Shallow embedding of `bro_tools/log_reader.py` (the Bro log reader):
the value decoder (`_cast_value` and the `TYPES` registry), the metadata
parser, and the record iteration of `BroLogReader.__iter__`, together
with proofs about the behaviour of those definitions.

Python stateful code is modelled by explicit state passing over a
`Reader` structure; Python exceptions are modelled by `Except Err`;
Python dictionaries by insertion-ordered association lists with
update-in-place semantics.
-/

deriving instance DecidableEq for Except

namespace BroTools

/-- The Python exception kinds the reader can raise.  `formatError` is the
module's own `BroLogFormatError`; the others mirror built-in exceptions
(`ValueError`, `KeyError`, `AttributeError`, `TypeError`,
`UnicodeDecodeError`), each carrying a message or offending name. -/
inductive Err where
  | formatError : String → Err
  | valueError : String → Err
  | keyError : String → Err
  | attributeError : String → Err
  | typeError : String → Err
  | unicodeDecodeError : String → Err
deriving DecidableEq, Repr

/-- A value stored in the reader's `_metadata` dictionary: a single string
(from a one-token directive, via `maybe_singleton`), a tuple of strings
(zero or at least two tokens), or a `datetime.datetime` built from the
integer components of an `open`/`close` directive (calendar structure is
kept as the raw component list; no claim depends on calendar arithmetic). -/
inductive MValue where
  | str : String → MValue
  | strs : List String → MValue
  | time : List Int → MValue
deriving DecidableEq, Repr

/-- A decoded scalar cell value: `None`, a `bool`, an `int` (from
`count`/`port`), a plain string (`enum`/`string`), an IPv4 address (as its
32-bit numeric value; see `ip_address`), a `timedelta` in seconds, or a
`datetime` timestamp in epoch seconds.  `interval`/`time` keep the parsed
number as an exact rational; no claim inspects those values. -/
inductive Scalar where
  | null : Scalar
  | bool : Bool → Scalar
  | int : Int → Scalar
  | str : String → Scalar
  | addr : Nat → Scalar
  | interval : Rat → Scalar
  | time : Rat → Scalar
deriving DecidableEq, Repr

/-- A decoded cell value: either a scalar, or an aggregate produced when
`decompose_aggregate` is on.  Element values are scalars: the regex group
`(\w+)` for the element type can never itself match the aggregate pattern
(see `aggMatch_of_wordStr`), so the recursion in `_cast_value` is at most
one level deep.  A Python `set` is unordered; it is represented here by
the deduplicated list of its elements (`List.dedup`), which is a faithful
canonical representative of set membership. -/
inductive Value where
  | scalar : Scalar → Value
  | set : List Scalar → Value
  | vec : List Scalar → Value
deriving DecidableEq, Repr

/-- A yielded record: a Python dict as an insertion-ordered association
list with unique keys (see `pyDictSet`). -/
abbrev Record := List (String × Value)

/-- Python dict assignment `d[k] = v`: update in place if the key is
present (keeping its original position), else append at the end. -/
def pyDictSet {α : Type} (d : List (String × α)) (k : String) (v : α) :
    List (String × α) :=
  if d.any (fun p => p.1 == k) then
    d.map (fun p => if p.1 == k then (k, v) else p)
  else d ++ [(k, v)]

/-- Python dict lookup `d[k]`/`d.get(k)` as an option. -/
def pyDictGet {α : Type} (d : List (String × α)) (k : String) : Option α :=
  (d.find? (fun p => p.1 == k)).map (fun p => p.2)

/-- `dict(pairs)`: left-to-right insertion of each pair. -/
def pyDictOfPairs (l : List (String × Value)) : Record :=
  l.foldl (fun d p => pyDictSet d p.1 p.2) []

/-- Numeric value of a list of decimal digit characters. -/
def digitsVal (ds : List Char) : Nat :=
  ds.foldl (fun a c => a * 10 + (c.toNat - '0'.toNat)) 0

/-- Python `str.strip()` on the character list: drop leading and trailing
whitespace. -/
def stripWS (l : List Char) : List Char :=
  ((l.dropWhile Char.isWhitespace).reverse.dropWhile Char.isWhitespace).reverse

/-- Worker for `pySplit`: Python `str.split(sep)` for a nonempty
separator, scanning left to right for non-overlapping occurrences.
`fuel` only bounds the recursion for structural termination (so that
concrete runs reduce inside the kernel); it is instantiated with the
length of the text, which the scan never exceeds, so the `0, l` arm with
a nonempty `l` is never reached from `pySplit`. -/
def pySplitAux (sep : List Char) : Nat → List Char → List Char →
    List (List Char)
  | _, [], cur => [cur.reverse]
  | 0, l, cur => [cur.reverse ++ l]
  | fuel + 1, c :: rest, cur =>
      if sep.isPrefixOf (c :: rest) then
        cur.reverse :: pySplitAux sep fuel ((c :: rest).drop sep.length) []
      else pySplitAux sep fuel rest (c :: cur)

/-- Models Python `str.split(sep)` with a nonempty string separator
(every call site guards the empty separator, which Python rejects with
`ValueError`, before splitting). -/
def pySplit (s sep : String) : List String :=
  match sep.data with
  | [] => [s]
  | s0 :: srest => (pySplitAux (s0 :: srest) s.data.length s.data []).map
      String.mk

/-- Models Python `int(s)` (base 10): optional surrounding whitespace, an
optional single `+`/`-` sign, then one or more decimal digits.  (Python
additionally allows underscore digit grouping, which no log cell uses and
no claim exercises.)  `none` models the `ValueError` raise. -/
def pyParseInt (s : String) : Option Int :=
  match stripWS s.data with
  | '-' :: ds =>
      if ds ≠ [] ∧ ds.all Char.isDigit then some (-(Int.ofNat (digitsVal ds)))
      else none
  | '+' :: ds =>
      if ds ≠ [] ∧ ds.all Char.isDigit then some (Int.ofNat (digitsVal ds))
      else none
  | ds =>
      if ds ≠ [] ∧ ds.all Char.isDigit then some (Int.ofNat (digitsVal ds))
      else none

/-- Models Python `float(s)` on plain decimal literals: optional sign,
integer digits, optional fractional part (`"1"`, `"1.5"`, `".5"`, `"1."`).
Exponent notation and `inf`/`nan` are not modelled; no claim exercises
them.  The result is the exact rational value. -/
def pyParseFloat (s : String) : Option Rat :=
  let core : List Char → Option Rat := fun t =>
    match pySplitAux ['.'] t.length t [] with
    | [i] =>
        if i ≠ [] ∧ i.all Char.isDigit then some ((digitsVal i : Rat))
        else none
    | [i, f] =>
        if (i ≠ [] ∨ f ≠ []) ∧ i.all Char.isDigit ∧ f.all Char.isDigit then
          some ((digitsVal i : Rat) +
            (digitsVal f : Rat) / ((10 : Rat) ^ f.length))
        else none
    | _ => none
  match stripWS s.data with
  | '-' :: rest => (core rest).map (fun q => -q)
  | '+' :: rest => core rest
  | rest => core rest

/-- Approximation of Python `repr` on a string: the text between single
quotes.  (Python additionally escapes special characters; the claims only
use it on plain printable text.) -/
def pyRepr (s : String) : String := "'" ++ s ++ "'"

/-- Value of a hexadecimal digit character, if it is one. -/
def hexDigitVal (c : Char) : Option Nat :=
  if c.isDigit then some (c.toNat - '0'.toNat)
  else if 'a' ≤ c ∧ c ≤ 'f' then some (c.toNat - 'a'.toNat + 10)
  else if 'A' ≤ c ∧ c ≤ 'F' then some (c.toNat - 'A'.toNat + 10)
  else none

/-- Octal digit test. -/
def isOctal (c : Char) : Bool := '0' ≤ c && c ≤ '7'

def octalVal (c : Char) : Nat := c.toNat - '0'.toNat

/-- A Unicode scalar from a code point, refusing the surrogate range
(Python would build a lone surrogate there, which a Lean `Char` cannot
hold; no log separator uses one). -/
def mkUChar (n : Nat) : Option Char :=
  if n < 0xD800 ∨ (0xE000 ≤ n ∧ n ≤ 0x10FFFF) then some (Char.ofNat n)
  else none

/-- Worker for `pyUnicodeEscape`, over the character list.  Mirrors the
escape forms of Python's `unicode_escape` codec: `\\`, `\'`, `\"`, the
letter escapes `\a \b \f \n \r \t \v`, a backslash-newline line
continuation, `\xHH` (exactly two hex digits required), one to three
octal digits, `\uHHHH` and `\UHHHHHHHH`; any other `\c` is kept verbatim
as the two characters.  `none` models a `UnicodeDecodeError` (trailing
backslash, malformed `\x`/`\u`/`\U`), and also the `\N{...}` named form,
which is not modelled here.  A non-escape character must be Latin-1
encodable, because `codecs.decode(str, 'unicode_escape')` first encodes
the text as Latin-1. -/
def unescapeAux : List Char → Option (List Char)
  | [] => some []
  | '\\' :: 'x' :: h1 :: h2 :: rest =>
      match hexDigitVal h1, hexDigitVal h2 with
      | some a, some b =>
          (unescapeAux rest).map (fun l => Char.ofNat (a * 16 + b) :: l)
      | _, _ => none
  | '\\' :: 'x' :: _ => none
  | '\\' :: 'u' :: a :: b :: c :: d :: rest =>
      match hexDigitVal a, hexDigitVal b, hexDigitVal c, hexDigitVal d with
      | some va, some vb, some vc, some vd =>
          match mkUChar (((va * 16 + vb) * 16 + vc) * 16 + vd) with
          | some ch => (unescapeAux rest).map (fun l => ch :: l)
          | none => none
      | _, _, _, _ => none
  | '\\' :: 'u' :: _ => none
  | '\\' :: 'U' :: a :: b :: c :: d :: e :: f :: g :: h :: rest =>
      match hexDigitVal a, hexDigitVal b, hexDigitVal c, hexDigitVal d,
          hexDigitVal e, hexDigitVal f, hexDigitVal g, hexDigitVal h with
      | some va, some vb, some vc, some vd, some ve, some vf, some vg,
          some vh =>
          match mkUChar (((((((va * 16 + vb) * 16 + vc) * 16 + vd) * 16 +
              ve) * 16 + vf) * 16 + vg) * 16 + vh) with
          | some ch => (unescapeAux rest).map (fun l => ch :: l)
          | none => none
      | _, _, _, _, _, _, _, _ => none
  | '\\' :: 'U' :: _ => none
  | ['\\'] => none
  | '\\' :: c :: rest =>
      if c = '\n' then unescapeAux rest
      else if c = '\\' then (unescapeAux rest).map (fun l => '\\' :: l)
      else if c = '\'' then (unescapeAux rest).map (fun l => '\'' :: l)
      else if c = '"' then (unescapeAux rest).map (fun l => '"' :: l)
      else if c = 'a' then
        (unescapeAux rest).map (fun l => Char.ofNat 7 :: l)
      else if c = 'b' then
        (unescapeAux rest).map (fun l => Char.ofNat 8 :: l)
      else if c = 'f' then
        (unescapeAux rest).map (fun l => Char.ofNat 12 :: l)
      else if c = 'n' then (unescapeAux rest).map (fun l => '\n' :: l)
      else if c = 'r' then
        (unescapeAux rest).map (fun l => Char.ofNat 13 :: l)
      else if c = 't' then (unescapeAux rest).map (fun l => '\t' :: l)
      else if c = 'v' then
        (unescapeAux rest).map (fun l => Char.ofNat 11 :: l)
      else if isOctal c then
        match rest with
        | d1 :: d2 :: rest2 =>
            if isOctal d1 ∧ isOctal d2 then
              (unescapeAux rest2).map (fun l =>
                Char.ofNat ((octalVal c * 8 + octalVal d1) * 8 +
                  octalVal d2) :: l)
            else if isOctal d1 then
              (unescapeAux (d2 :: rest2)).map (fun l =>
                Char.ofNat (octalVal c * 8 + octalVal d1) :: l)
            else
              (unescapeAux (d1 :: d2 :: rest2)).map (fun l =>
                Char.ofNat (octalVal c) :: l)
        | [d1] =>
            if isOctal d1 then
              some [Char.ofNat (octalVal c * 8 + octalVal d1)]
            else
              (unescapeAux [d1]).map (fun l => Char.ofNat (octalVal c) :: l)
        | [] => some [Char.ofNat (octalVal c)]
      else if c = 'N' then none
      else if c.toNat ≤ 255 then
        (unescapeAux rest).map (fun l => '\\' :: c :: l)
      else none
  | c :: rest =>
      if c.toNat ≤ 255 then (unescapeAux rest).map (fun l => c :: l)
      else none

/-- Models `codecs.decode(s, 'unicode_escape')`; `none` is a decode
error. -/
def pyUnicodeEscape (s : String) : Option String :=
  (unescapeAux s.data).map String.mk

/-- A word character for Python's regex `\w` (ASCII range; Python's
Unicode `\w` also covers non-ASCII letters, which no type name in this
format uses). -/
def isWordChar (c : Char) : Bool := c.isAlphanum || c == '_'

/-- Models `AGGREGATE_TYPE_RE.match(t)` for the pattern
`^(\w+)\[(\w+)\]$`: the maximal word prefix, a literal `[`, a maximal
word run, a final `]`.  Greedy `\w+` matching coincides with maximal
runs because `[` and `]` are not word characters. -/
def aggMatch (s : String) : Option (String × String) :=
  match s.data.span isWordChar with
  | (w1, rest1) =>
    match rest1 with
    | '[' :: rest2 =>
      match rest2.span isWordChar with
      | (w2, rest3) =>
        match rest3 with
        | [']'] =>
            if w1 ≠ [] ∧ w2 ≠ [] then some (String.mk w1, String.mk w2)
            else none
        | _ => none
    | _ => none

/-- Python `int(s)` raising `ValueError` on failure. -/
def pyIntE (s : String) : Except Err Int :=
  match pyParseInt s with
  | some n => .ok n
  | none =>
      .error (.valueError ("invalid literal for int() with base 10: " ++
        pyRepr s))

/-- Python `float(s)` raising `ValueError` on failure. -/
def pyFloatE (s : String) : Except Err Rat :=
  match pyParseFloat s with
  | some q => .ok q
  | none =>
      .error (.valueError ("could not convert string to float: " ++
        pyRepr s))

/-- `range_check(minv, maxv)` from the source: builds a validator that
parses the cell as an `int` and then bounds-checks it against an optional
inclusive lower bound and optional exclusive upper bound, raising
`ValueError` with the corresponding message on violation. -/
def range_check (minv maxv : Option Int) : String → Except Err Int :=
  match minv, maxv with
  | some mn, some mx => fun s => do
      let n ← pyIntE s
      if mn ≤ n ∧ n < mx then .ok n
      else
        .error (.valueError (toString n ++ " not between " ++
          toString mn ++ " and " ++ toString mx))
  | none, some mx => fun s => do
      let n ← pyIntE s
      if n < mx then .ok n
      else .error (.valueError (toString n ++ " not less than " ++
        toString mx))
  | some mn, none => fun s => do
      let n ← pyIntE s
      if mn ≤ n then .ok n
      else
        .error (.valueError (toString n ++
          " not greater than or equal to " ++ toString mn))
  | none, none => pyIntE

/-- `bool_from_str` from the source: the case-sensitive boolean
literals. -/
def bool_from_str (v : String) : Except Err Bool :=
  if v = "1" ∨ v = "y" ∨ v = "Y" ∨ v = "t" ∨ v = "T" then .ok true
  else if v = "0" ∨ v = "n" ∨ v = "N" ∨ v = "f" ∨ v = "F" then .ok false
  else .error (.valueError (pyRepr v ++ " not bool-like"))

/-- One dotted-quad component for `ipaddress`: one to three decimal
digits, no leading zero, value at most 255. -/
def ipv4Octet (p : String) : Option Nat :=
  if p.data ≠ [] ∧ p.data.all Char.isDigit ∧ p.data.length ≤ 3 ∧
      (p.data = ['0'] ∨ p.data.head? ≠ some '0') then
    if digitsVal p.data ≤ 255 then some (digitsVal p.data) else none
  else none

/-- Models `ipaddress.ip_address` on IPv4 dotted-quad text, producing the
32-bit value.  IPv6 textual forms are not modelled (no claim exercises
an address value); they fall to the error case. -/
def ip_address (s : String) : Except Err Scalar :=
  match pySplit s "." with
  | [a, b, c, d] =>
    match ipv4Octet a, ipv4Octet b, ipv4Octet c, ipv4Octet d with
    | some x, some y, some z, some w =>
        .ok (.addr (((x * 256 + y) * 256 + z) * 256 + w))
    | _, _, _, _ =>
        .error (.valueError (pyRepr s ++
          " does not appear to be an IPv4 or IPv6 address"))
  | _ =>
      .error (.valueError (pyRepr s ++
        " does not appear to be an IPv4 or IPv6 address"))

/-- The `TYPES` registry: a plain dictionary from scalar type name to
caster; `none` models the `KeyError` a lookup of any other name raises.
Casters producing Python objects (`bool`, `int`, `timedelta`,
`datetime`) are wrapped into the corresponding `Scalar` constructor. -/
def TYPES : String → Option (String → Except Err Scalar)
  | "addr" => some ip_address
  | "bool" => some (fun v => (bool_from_str v).map Scalar.bool)
  | "count" => some (fun v => (range_check (some 0) none v).map Scalar.int)
  | "enum" => some (fun v => .ok (.str v))
  | "interval" => some (fun v => (pyFloatE v).map Scalar.interval)
  | "port" =>
      some (fun v => (range_check (some 0) (some 65536) v).map Scalar.int)
  | "string" => some (fun v => .ok (.str v))
  | "time" => some (fun v => (pyFloatE v).map Scalar.time)
  | _ => none

/-- The collection constructor an aggregate kind maps to. -/
inductive AggKind where
  | set : AggKind
  | vec : AggKind
deriving DecidableEq, Repr

/-- The `AGGREGATE_TYPES` dictionary: `set` and `vector` only; `none`
models the `KeyError` on any other kind. -/
def AGGREGATE_TYPES : String → Option AggKind
  | "set" => some .set
  | "vector" => some .vec
  | _ => none

/-- The reader's mutable state: the `_metadata` dictionary (initialised
to `{'separator': ' '}`) and the construction-time
`decompose_aggregate` flag. -/
structure Reader where
  metadata : List (String × MValue)
  decompose_aggregate : Bool
deriving DecidableEq, Repr

/-- `BroLogReader.__init__`. -/
def Reader.init (decompose : Bool) : Reader :=
  ⟨[("separator", .str " ")], decompose⟩

/-- `__getattr__`: metadata lookup, `AttributeError` when absent. -/
def Reader.getAttr (r : Reader) (name : String) : Except Err MValue :=
  match pyDictGet r.metadata name with
  | some m => .ok m
  | none => .error (.attributeError name)

/-- Python `value == m` where `value` is a `str` and `m` a metadata
object: true exactly when `m` is an equal string (a tuple or datetime
never equals a string). -/
def mvalEqStr (m : MValue) (v : String) : Bool :=
  match m with
  | .str s => v == s
  | _ => false

/-- Fail-fast left-to-right traversal, as a Python comprehension or
collection constructor consumes a generator. -/
def exceptMapList {α β : Type} (f : α → Except Err β) :
    List α → Except Err (List β)
  | [] => .ok []
  | a :: rest => do
    let b ← f a
    let bs ← exceptMapList f rest
    .ok (b :: bs)

/-- The recursive call `self._cast_value(v, subtype)` of the aggregate
branch, specialised to its actual use: `subtype` comes from the regex
group `(\w+)`, which can never match `AGGREGATE_TYPE_RE` again (it has no
brackets), so on such arguments `_cast_value` is the unset check followed
by scalar dispatch.  `castElem_eq_castValue` proves this inlining agrees
with the full `castValue` on every word-string type. -/
def castElem (r : Reader) (v t : String) : Except Err Scalar := do
  let u ← r.getAttr "unset_field"
  if mvalEqStr u v then .ok .null
  else
    match TYPES t with
    | some f => f v
    | none => .error (.keyError t)

/-- `_cast_value`: the unset check, then the aggregate branch (empty
marker, kind lookup, split on `set_separator` and element decoding, or
raw passthrough when `decompose_aggregate` is off), then scalar dispatch
through `TYPES`. -/
def castValue (r : Reader) (v t : String) : Except Err Value := do
  let u ← r.getAttr "unset_field"
  if mvalEqStr u v then .ok (.scalar .null)
  else
    match aggMatch t with
    | some (kind, sub) =>
      if r.decompose_aggregate then do
        let e ← r.getAttr "empty_field"
        if mvalEqStr e v then
          match AGGREGATE_TYPES kind with
          | some .set => .ok (.set [])
          | some .vec => .ok (.vec [])
          | none => .error (.keyError kind)
        else
          match AGGREGATE_TYPES kind with
          | some k => do
            let ssm ← r.getAttr "set_separator"
            match ssm with
            | .str ss =>
              if ss = "" then .error (.valueError "empty separator")
              else do
                let elems ←
                  exceptMapList (fun p => castElem r p sub) (pySplit v ss)
                match k with
                | .set => .ok (.set elems.dedup)
                | .vec => .ok (.vec elems)
            | _ => .error (.typeError "must be str, not tuple")
          | none => .error (.keyError kind)
      else .ok (.scalar (.str v))
    | none =>
      match TYPES t with
      | some f => (f v).map .scalar
      | none => .error (.keyError t)

/-- `_cast_values`: zip cells against types, cast each pair. -/
def castValues (r : Reader) (values types : List String) :
    Except Err (List Value) :=
  exceptMapList (fun p => castValue r p.1 p.2) (values.zip types)

/-- `maybe_singleton`: a one-element token tuple becomes the bare string,
anything else stays a tuple. -/
def maybe_singleton (l : List String) : MValue :=
  match l with
  | [x] => .str x
  | xs => .strs xs

/-- `line.startswith('#')`. -/
def startsWithHash (s : String) : Bool :=
  match s.data with
  | '#' :: _ => true
  | _ => false

/-- `line.lstrip('#')`: drop every leading `#`. -/
def lstripHash (s : String) : String :=
  String.mk (s.data.dropWhile (fun c => c == '#'))

/-- `line.rstrip('\n')`: drop every trailing newline. -/
def rstripNewline (s : String) : String :=
  String.mk ((s.data.reverse.dropWhile (fun c => c == '\n')).reverse)

/-- `self.separator` as the argument of `str.split`: an `AttributeError`
if absent, a `TypeError` if not a string, a `ValueError` if empty (the
stored value is in fact always a nonempty string: it is `' '` initially
and a directive stores a single character). -/
def Reader.getSeparatorStr (r : Reader) : Except Err String := do
  let m ← r.getAttr "separator"
  match m with
  | .str s =>
      if s = "" then .error (.valueError "empty separator")
      else .ok s
  | _ => .error (.typeError "must be str, not tuple")

/-- Iterating a metadata object, as `zip`/`dict` do with the stored
`types`/`fields`: a tuple yields its items, a string yields its
characters as one-character strings (this is what happens when exactly
one field or type was declared, because of `maybe_singleton`), and a
datetime is not iterable. -/
def mvalToIter (m : MValue) : Except Err (List String) :=
  match m with
  | .strs l => .ok l
  | .str s => .ok (s.data.map (fun c => String.mk [c]))
  | .time _ => .error (.typeError "object is not iterable")

/-- The directive-specific post-processing of `__iter__` (the
`separator`/`set_separator` unescape-and-length-check and the
`open`/`close` timestamp parse); every other key stores its value as
parsed.  Calendar-range validation of `datetime(...)` is not modelled
(no claim depends on it); the argument-count requirement is. -/
def metaPostProcess (key : String) (rest : MValue) : Except Err MValue :=
  if key = "separator" ∨ key = "set_separator" then
    match rest with
    | .str v =>
      match pyUnicodeEscape v with
      | some u =>
          if u.length ≠ 1 then
            .error (.formatError ("\"" ++ pyRepr u ++
              "\" is not a valid separator"))
          else .ok (.str u)
      | none => .error (.unicodeDecodeError v)
    | _ => .error (.typeError "decoding to str: need a bytes-like object")
  else if key = "open" ∨ key = "close" then
    match rest with
    | .str v => do
      let parts ← exceptMapList pyIntE (pySplit v "-")
      if 3 ≤ parts.length ∧ parts.length ≤ 7 then .ok (.time parts)
      else .error (.typeError "datetime argument count")
    | _ => .error (.attributeError "split")
  else .ok rest

/-- One iteration step of `__iter__` on one input line: a `#` line is
split on the current separator into directive key and value tokens,
post-processed, and merged into the metadata; any other line is split on
the current separator, cast against the stored `types`, zipped with the
stored `fields` and yielded as a record. -/
def processLine (r : Reader) (line : String) :
    Except Err (Reader × Option Record) :=
  if startsWithHash line then do
    let sep ← r.getSeparatorStr
    match pySplit (rstripNewline (lstripHash line)) sep with
    | [] => .error (.valueError "not enough values to unpack")
    | key :: restToks => do
      let rest2 ← metaPostProcess key (maybe_singleton restToks)
      .ok ({ r with metadata := pyDictSet r.metadata key rest2 }, none)
  else do
    let sep ← r.getSeparatorStr
    let values := pySplit (rstripNewline line) sep
    let tm ← match pyDictGet r.metadata "types" with
      | some m => Except.ok m
      | none => Except.error (Err.keyError "types")
    let tlist ← mvalToIter tm
    let decoded ← castValues r values tlist
    let fm ← r.getAttr "fields"
    let flist ← mvalToIter fm
    .ok (r, some (pyDictOfPairs (flist.zip decoded)))

/-- Running `__iter__` over a list of input lines, collecting the reader
state and every yielded record; an exception anywhere aborts the run, as
iteration would. -/
def runLines (r : Reader) : List String → Except Err (Reader × List Record)
  | [] => .ok (r, [])
  | l :: ls => do
    let (r1, rec0) ← processLine r l
    let (r2, recs) ← runLines r1 ls
    .ok (r2, rec0.toList ++ recs)

/-! ### Helper lemmas about the embedding -/

theorem pySplitAux_ne_nil (sep : List Char) :
    ∀ (fuel : Nat) (l cur : List Char), pySplitAux sep fuel l cur ≠ [] := by
  intro fuel
  induction fuel with
  | zero => intro l cur; cases l <;> simp [pySplitAux]
  | succ n ih =>
      intro l cur
      cases l with
      | nil => simp [pySplitAux]
      | cons c rest =>
          by_cases h : sep.isPrefixOf (c :: rest) <;>
            simp [pySplitAux, h, ih]

/-- A Python `str.split` never returns an empty list. -/
theorem pySplit_ne_nil (s sep : String) : pySplit s sep ≠ [] := by
  unfold pySplit
  cases hd : sep.data with
  | nil => simp
  | cons s0 srest => simp [pySplitAux_ne_nil]

theorem exceptMapList_length {α β : Type} (f : α → Except Err β) :
    ∀ (l : List α) (bs : List β),
      exceptMapList f l = .ok bs → bs.length = l.length := by
  intro l
  induction l with
  | nil =>
      intro bs h
      simp [exceptMapList] at h
      simp [← h]
  | cons a rest ih =>
      intro bs h
      rw [exceptMapList] at h
      cases hf : f a with
      | error e => simp [hf, Bind.bind, Except.bind] at h
      | ok b =>
          cases hr : exceptMapList f rest with
          | error e => simp [hf, hr, Bind.bind, Except.bind] at h
          | ok bs' =>
              simp [hf, hr, Bind.bind, Except.bind] at h
              simp [← h, ih bs' hr]

theorem pyDictSet_of_not_mem {α : Type} (d : List (String × α))
    (k : String) (v : α) (h : ∀ p ∈ d, p.1 ≠ k) :
    pyDictSet d k v = d ++ [(k, v)] := by
  have hany : (d.any fun p => p.1 == k) = false := by
    rw [List.any_eq_false]
    intro p hp
    simpa using h p hp
  simp [pyDictSet, hany]

theorem pyDictGet_pyDictSet_self {α : Type} (d : List (String × α))
    (k : String) (v : α) : pyDictGet (pyDictSet d k v) k = some v := by
  unfold pyDictSet pyDictGet
  cases hany : (d.any fun p => p.1 == k) with
  | false =>
      simp only [hany, Bool.false_eq_true, if_false]
      rw [List.find?_append]
      have hnone : d.find? (fun p => p.1 == k) = none := by
        rw [List.find?_eq_none]
        intro p hp
        have := (List.any_eq_false.mp hany) p hp
        simpa using this
      simp [hnone, List.find?_cons]
  | true =>
      simp only [hany, if_true]
      rw [List.find?_map]
      have hpred : ((fun p : String × α => p.1 == k) ∘
          (fun p : String × α => if p.1 == k then (k, v) else p)) =
          (fun p : String × α => p.1 == k) := by
        funext p
        by_cases hp : p.1 = k <;> simp [hp]
      rw [hpred]
      obtain ⟨p, hp, hpk⟩ := List.any_eq_true.mp hany
      cases hf : d.find? (fun p => p.1 == k) with
      | none =>
          rw [List.find?_eq_none] at hf
          exact absurd hpk (hf p hp)
      | some q =>
          have hq : q.1 = k := by simpa using List.find?_some hf
          simp [hq]

theorem pyDictGet_pyDictSet_of_ne {α : Type} (d : List (String × α))
    (k k' : String) (v : α) (h : k ≠ k') :
    pyDictGet (pyDictSet d k v) k' = pyDictGet d k' := by
  unfold pyDictSet pyDictGet
  cases hany : (d.any fun p => p.1 == k) with
  | false =>
      simp only [hany, Bool.false_eq_true, if_false]
      rw [List.find?_append]
      have hsingle : ([(k, v)].find? fun p => p.1 == k') = none := by
        simp [List.find?_cons, h]
      simp [hsingle]
  | true =>
      simp only [hany, if_true]
      rw [List.find?_map]
      have hpred : ((fun p : String × α => p.1 == k') ∘
          (fun p : String × α => if p.1 == k then (k, v) else p)) =
          (fun p : String × α => p.1 == k') := by
        funext p
        by_cases hp : p.1 = k <;> simp [hp, h]
      rw [hpred]
      cases hf : d.find? (fun p => p.1 == k') with
      | none => simp
      | some q =>
          have hq : q.1 = k' := by simpa using List.find?_some hf
          have hqk : ¬ (q.1 = k) := fun hc => h (hc ▸ hq)
          simp [hq]
          rw [if_neg (Ne.symm h)]

theorem foldl_pyDictSet_of_disjoint :
    ∀ (l acc : List (String × Value)),
      (∀ p ∈ l, ∀ q ∈ acc, q.1 ≠ p.1) → (l.map Prod.fst).Nodup →
      l.foldl (fun d p => pyDictSet d p.1 p.2) acc = acc ++ l := by
  intro l
  induction l with
  | nil => intro acc _ _; simp
  | cons a rest ih =>
      intro acc hdisj hnodup
      simp only [List.foldl_cons]
      have hfresh : ∀ q ∈ acc, q.1 ≠ a.1 :=
        fun q hq => hdisj a (List.mem_cons_self a rest) q hq
      rw [pyDictSet_of_not_mem acc a.1 a.2 hfresh]
      simp only [List.map_cons, List.nodup_cons] at hnodup
      have hdisj' : ∀ p ∈ rest, ∀ q ∈ acc ++ [a], q.1 ≠ p.1 := by
        intro p hp q hq
        rcases List.mem_append.mp hq with hq1 | hq2
        · exact hdisj p (List.mem_cons_of_mem a hp) q hq1
        · have hqa : q = a := by simpa using hq2
          subst hqa
          intro hc
          apply hnodup.1
          rw [hc]
          exact List.mem_map_of_mem Prod.fst hp
      rw [ih (acc ++ [a]) hdisj' hnodup.2]
      simp

theorem pyDictOfPairs_of_nodup (l : List (String × Value))
    (h : (l.map Prod.fst).Nodup) : pyDictOfPairs l = l := by
  have := foldl_pyDictSet_of_disjoint l [] (by simp) h
  simpa [pyDictOfPairs] using this

theorem getLast?_cons_eq {α : Type} : ∀ (l : List α) (a : α),
    (a :: l).getLast? = match l.getLast? with
      | some x => some x
      | none => some a := by
  intro l
  induction l with
  | nil => intro a; rfl
  | cons b m ih =>
      intro a
      rw [List.getLast?_cons_cons]
      cases h : (b :: m).getLast? with
      | some x => simp [h]
      | none =>
          rw [ih b] at h
          cases hm : m.getLast? <;> simp [hm] at h

theorem pyDictGet_foldl_pyDictSet (l : List (String × Value)) (k : String) :
    ∀ acc : List (String × Value),
      pyDictGet (l.foldl (fun d p => pyDictSet d p.1 p.2) acc) k =
        match (l.filter (fun p => p.1 == k)).getLast? with
        | some p => some p.2
        | none => pyDictGet acc k := by
  induction l with
  | nil => intro acc; simp
  | cons a rest ih =>
      intro acc
      simp only [List.foldl_cons]
      rw [ih (pyDictSet acc a.1 a.2)]
      by_cases hak : a.1 = k
      · have hfil : (a :: rest).filter (fun p => p.1 == k) =
            a :: rest.filter (fun p => p.1 == k) := by
          simp [List.filter_cons, hak]
        rw [hfil, getLast?_cons_eq]
        cases hr : (rest.filter fun p => p.1 == k).getLast? with
        | some p => simp
        | none =>
            rw [hak]
            simp [pyDictGet_pyDictSet_self acc k a.2]
      · have hfil : (a :: rest).filter (fun p => p.1 == k) =
            rest.filter (fun p => p.1 == k) := by
          simp [List.filter_cons, hak]
        rw [hfil]
        cases hr : (rest.filter fun p => p.1 == k).getLast? with
        | some p => simp
        | none => simp [pyDictGet_pyDictSet_of_ne acc a.1 k a.2 hak]

/-- Looking a key up in `dict(pairs)` yields the value of the last pair
carrying that key. -/
theorem pyDictGet_pyDictOfPairs (l : List (String × Value)) (k : String) :
    pyDictGet (pyDictOfPairs l) k =
      ((l.filter (fun p => p.1 == k)).getLast?).map (fun p => p.2) := by
  rw [pyDictOfPairs, pyDictGet_foldl_pyDictSet l k []]
  cases (l.filter fun p => p.1 == k).getLast? <;> simp [pyDictGet]

theorem map_fst_zip_eq_take {α β : Type} :
    ∀ (l1 : List α) (l2 : List β),
      (l1.zip l2).map Prod.fst = l1.take l2.length := by
  intro l1
  induction l1 with
  | nil => intro l2; simp
  | cons a r ih =>
      intro l2
      cases l2 with
      | nil => simp
      | cons b s => simp [List.zip_cons_cons, ih s]

/-- The element-type group of a successful aggregate match consists of
word characters (it was matched by `(\w+)`). -/
theorem aggMatch_sub_word (t k sub : String)
    (h : aggMatch t = some (k, sub)) : ∀ c ∈ sub.data, isWordChar c := by
  unfold aggMatch at h
  rw [List.span_eq_take_drop] at h
  cases hdrop : t.data.dropWhile isWordChar with
  | nil => rw [hdrop] at h; simp at h
  | cons c1 rest1 =>
      rw [hdrop] at h
      by_cases hc1 : c1 = '['
      · subst hc1
        simp only [List.span_eq_take_drop] at h
        cases hdrop2 : rest1.dropWhile isWordChar with
        | nil => rw [hdrop2] at h; simp at h
        | cons c2 rest2 =>
            rw [hdrop2] at h
            cases rest2 with
            | cons _ _ => simp at h
            | nil =>
                by_cases hc2 : c2 = ']'
                · subst hc2
                  simp only at h
                  split at h
                  · simp only [Option.some.injEq, Prod.mk.injEq] at h
                    intro c hc
                    rw [← h.2] at hc
                    exact List.mem_takeWhile_imp hc
                  · simp at h
                · simp [hc2] at h
      · simp [hc1] at h

/-- A nonempty-or-empty all-word string never matches the aggregate
pattern: it contains no bracket. -/
theorem aggMatch_of_word (s : String) (hw : ∀ c ∈ s.data, isWordChar c) :
    aggMatch s = none := by
  unfold aggMatch
  rw [List.span_eq_take_drop]
  have hdrop : s.data.dropWhile isWordChar = [] :=
    List.dropWhile_eq_nil_iff.mpr hw
  rw [hdrop]

/-- The inlining of the recursive `self._cast_value(v, subtype)` call as
`castElem` is faithful: on any type string the aggregate pattern does not
match — in particular on every regex group `(\w+)`, by
`aggMatch_sub_word` and `aggMatch_of_word` — the full `_cast_value` is
exactly the unset check plus scalar dispatch. -/
theorem castElem_eq_castValue (r : Reader) (v t : String)
    (ht : aggMatch t = none) :
    castValue r v t = (castElem r v t).map Value.scalar := by
  unfold castValue castElem
  cases hu : r.getAttr "unset_field" with
  | error e => simp [hu, Bind.bind, Except.bind, Except.map]
  | ok u =>
      cases hm : mvalEqStr u v with
      | true => simp [hu, hm, Bind.bind, Except.bind, Except.map]
      | false =>
          simp only [hu, hm, Bind.bind, Except.bind, ht]
          cases hT : TYPES t with
          | none => simp [Except.map]
          | some f => simp [Except.map]

theorem getAttr_eq (r : Reader) (name : String) (m : MValue)
    (h : pyDictGet r.metadata name = some m) : r.getAttr name = .ok m := by
  unfold Reader.getAttr
  rw [h]

theorem getAttr_none (r : Reader) (name : String)
    (h : pyDictGet r.metadata name = none) :
    r.getAttr name = .error (.attributeError name) := by
  unfold Reader.getAttr
  rw [h]

theorem string_append_assoc (a b c : String) : a ++ b ++ c = a ++ (b ++ c) := by
  cases a with
  | mk la =>
    cases b with
    | mk lb =>
      cases c with
      | mk lc =>
        show String.mk (la ++ lb ++ lc) = String.mk (la ++ (lb ++ lc))
        rw [List.append_assoc]

/-- On a cell that is not the unset marker and a type the aggregate
pattern does not match, `_cast_value` is exactly the `TYPES` dispatch. -/
theorem castValue_scalar_dispatch (r : Reader) (u v t : String)
    (hu : pyDictGet r.metadata "unset_field" = some (.str u))
    (hvu : v ≠ u) (hagg : aggMatch t = none) :
    castValue r v t = match TYPES t with
      | some f => (f v).map Value.scalar
      | none => .error (.keyError t) := by
  unfold castValue
  rw [getAttr_eq r "unset_field" (.str u) hu]
  have hm : mvalEqStr (.str u) v = false := by
    simp [mvalEqStr]
    exact hvu
  simp only [Bind.bind, Except.bind, hm, Bool.false_eq_true, if_false, hagg]

/-! ### Shared concrete reader states for witnesses and counterexamples -/

/-- A fully configured decomposing reader, as the header lines
`#separator` (space), `#unset_field -`, `#empty_field (empty)`,
`#set_separator ,`, `#fields a b`, `#types string string` leave it. -/
def sampleReader : Reader :=
  { metadata := [("separator", .str " "), ("unset_field", .str "-"),
      ("empty_field", .str "(empty)"), ("set_separator", .str ","),
      ("fields", .strs ["a", "b"]), ("types", .strs ["string", "string"])],
    decompose_aggregate := true }

/-- The same state with aggregate decomposition disabled at
construction. -/
def sampleRawReader : Reader :=
  { sampleReader with decompose_aggregate := false }

/-! ### The claims -/

/-- C1: for every declared type (scalar or aggregate) and every
configuration where the unset marker is set, decoding a raw cell whose
string equals the unset marker returns null, before and regardless of
any type-specific casting: `_cast_value` returns `None` on the very
first check, whatever the type string is. -/
theorem claim1_unset_marker_decodes_null (r : Reader) (u t : String)
    (hu : pyDictGet r.metadata "unset_field" = some (.str u)) :
    castValue r u t = .ok (.scalar .null) := by
  unfold castValue
  rw [getAttr_eq r "unset_field" (.str u) hu]
  simp [Bind.bind, Except.bind, mvalEqStr]

theorem claim1_witness :
    castValue sampleReader "-" "set[count]" = .ok (.scalar .null) :=
  claim1_unset_marker_decodes_null sampleReader "-" "set[count]" (by decide)

/-- C3, as stated, is false: `TYPES` is a plain dictionary, so looking up
an unrecognized type name raises `KeyError` instead of passing the raw
string through.  Concretely, decoding the cell `x` with the unknown type
name `foo` raises `KeyError('foo')` and does not return `x`. -/
theorem claim3_counterexample :
    castValue sampleReader "x" "foo" = .error (.keyError "foo")
    ∧ castValue sampleReader "x" "foo" ≠ .ok (.scalar (.str "x")) := by
  decide

/-- C3 amended: for a raw cell other than the unset marker, the declared
types `enum` and `string` pass the raw string through unchanged; but a
type name that neither matches the aggregate pattern nor appears in the
`TYPES` registry raises a `KeyError` (it is not passed through and not a
silent default). -/
theorem claim3_amended_enum_string_passthrough (r : Reader) (u v t : String)
    (hu : pyDictGet r.metadata "unset_field" = some (.str u))
    (hvu : v ≠ u) :
    ((t = "enum" ∨ t = "string") → castValue r v t = .ok (.scalar (.str v)))
    ∧ (aggMatch t = none → TYPES t = none →
        castValue r v t = .error (.keyError t)) := by
  constructor
  · intro ht
    rcases ht with rfl | rfl
    · rw [castValue_scalar_dispatch r u v "enum" hu hvu (by decide)]
      rfl
    · rw [castValue_scalar_dispatch r u v "string" hu hvu (by decide)]
      rfl
  · intro hagg hT
    rw [castValue_scalar_dispatch r u v t hu hvu hagg, hT]

theorem claim3_witness :
    castValue sampleReader "tcp" "enum" = .ok (.scalar (.str "tcp")) :=
  (claim3_amended_enum_string_passthrough sampleReader "-" "tcp" "enum"
    (by decide) (by decide)).1 (Or.inl rfl)

/-- C4: for every integer-valued raw cell (one Python `int()` parses as
`n`) that is not the unset marker, `count` decoding succeeds with `n`
exactly when `0 ≤ n` and otherwise fails naming the violated lower
bound, and `port` decoding succeeds with `n` exactly when
`0 ≤ n < 65536` and otherwise fails with a message naming the value and
the range bounds. -/
theorem claim4_count_port_ranges (r : Reader) (u s : String) (n : Int)
    (hu : pyDictGet r.metadata "unset_field" = some (.str u))
    (hsu : s ≠ u) (hn : pyParseInt s = some n) :
    castValue r s "count" =
      (if 0 ≤ n then .ok (.scalar (.int n))
       else .error (.valueError
        (toString n ++ " not greater than or equal to 0")))
    ∧ castValue r s "port" =
      (if 0 ≤ n ∧ n < 65536 then .ok (.scalar (.int n))
       else .error (.valueError
        (toString n ++ " not between 0 and 65536"))) := by
  have hint : pyIntE s = .ok n := by
    unfold pyIntE
    rw [hn]
  have hmsgc : toString n ++ " not greater than or equal to " ++
      toString (0 : Int) = toString n ++ " not greater than or equal to 0" := by
    rw [string_append_assoc]
    rfl
  have hmsgp : toString n ++ " not between " ++ toString (0 : Int) ++
      " and " ++ toString (65536 : Int) =
      toString n ++ " not between 0 and 65536" := by
    simp only [string_append_assoc]
    rfl
  constructor
  · rw [castValue_scalar_dispatch r u s "count" hu hsu (by decide)]
    show ((range_check (some 0) none s).map Scalar.int).map Value.scalar = _
    have hrc : range_check (some 0) none s =
        if (0 : Int) ≤ n then .ok n
        else .error (.valueError (toString n ++
          " not greater than or equal to " ++ toString (0 : Int))) := by
      unfold range_check
      simp only [Bind.bind, Except.bind, hint]
    rw [hrc]
    by_cases h0 : (0 : Int) ≤ n
    · simp [h0, Except.map]
    · simp [h0, Except.map, hmsgc]
  · rw [castValue_scalar_dispatch r u s "port" hu hsu (by decide)]
    show ((range_check (some 0) (some 65536) s).map Scalar.int).map
      Value.scalar = _
    have hrc : range_check (some 0) (some 65536) s =
        if (0 : Int) ≤ n ∧ n < 65536 then .ok n
        else .error (.valueError (toString n ++ " not between " ++
          toString (0 : Int) ++ " and " ++ toString (65536 : Int))) := by
      unfold range_check
      simp only [Bind.bind, Except.bind, hint]
    rw [hrc]
    by_cases h0 : (0 : Int) ≤ n ∧ n < 65536
    · simp [h0, Except.map]
    · simp [h0, Except.map, hmsgp]

theorem claim4_witness :
    castValue sampleReader "70000" "port" =
      .error (.valueError "70000 not between 0 and 65536") := by
  have h := (claim4_count_port_ranges sampleReader "-" "70000" 70000
    (by decide) (by decide) (by decide)).2
  rw [if_neg (by decide)] at h
  exact h

/-- C5: for a cell that is not the unset marker, `bool` decoding yields
true exactly on the case-sensitive literals `1 y Y t T`, false exactly on
`0 n N f F`, and a `ValueError` on every other string — in particular
there is no case-insensitive fallback: `true` and `yes` fail. -/
theorem claim5_bool_literals (r : Reader) (u v : String)
    (hu : pyDictGet r.metadata "unset_field" = some (.str u))
    (hvu : v ≠ u) :
    (castValue r v "bool" = .ok (.scalar (.bool true)) ↔
      v ∈ (["1", "y", "Y", "t", "T"] : List String))
    ∧ (castValue r v "bool" = .ok (.scalar (.bool false)) ↔
      v ∈ (["0", "n", "N", "f", "F"] : List String))
    ∧ (v ∉ (["1", "y", "Y", "t", "T", "0", "n", "N", "f", "F"] :
        List String) →
      castValue r v "bool" =
        .error (.valueError (pyRepr v ++ " not bool-like")))
    ∧ castValue sampleReader "true" "bool" =
        .error (.valueError (pyRepr "true" ++ " not bool-like"))
    ∧ castValue sampleReader "yes" "bool" =
        .error (.valueError (pyRepr "yes" ++ " not bool-like")) := by
  have hdisp : castValue r v "bool" =
      ((bool_from_str v).map Scalar.bool).map Value.scalar := by
    rw [castValue_scalar_dispatch r u v "bool" hu hvu (by decide)]
    rfl
  rw [hdisp]
  by_cases h1 : v ∈ (["1", "y", "Y", "t", "T"] : List String)
  · have h1' := h1
    simp only [List.mem_cons, List.not_mem_nil, or_false] at h1'
    rcases h1' with rfl | rfl | rfl | rfl | rfl <;> exact by decide
  · by_cases h2 : v ∈ (["0", "n", "N", "f", "F"] : List String)
    · have h2' := h2
      simp only [List.mem_cons, List.not_mem_nil, or_false] at h2'
      rcases h2' with rfl | rfl | rfl | rfl | rfl <;> exact by decide
    · have hne1 : ¬ (v = "1" ∨ v = "y" ∨ v = "Y" ∨ v = "t" ∨ v = "T") := by
        simpa using h1
      have hne2 : ¬ (v = "0" ∨ v = "n" ∨ v = "N" ∨ v = "f" ∨ v = "F") := by
        simpa using h2
      have hbv : bool_from_str v =
          .error (.valueError (pyRepr v ++ " not bool-like")) := by
        unfold bool_from_str
        rw [if_neg hne1, if_neg hne2]
      rw [hbv]
      refine ⟨?_, ?_, ?_, by decide, by decide⟩
      · constructor
        · intro h
          simp [Except.map] at h
        · intro h
          exact absurd h h1
      · constructor
        · intro h
          simp [Except.map] at h
        · intro h
          exact absurd h h2
      · intro _
        simp [Except.map]

theorem claim5_witness :
    castValue sampleReader "T" "bool" = .ok (.scalar (.bool true)) :=
  (claim5_bool_literals sampleReader "-" "T" (by decide) (by decide)).1.mpr
    (by decide)

/-- C2: with aggregate decomposition enabled, an aggregate-typed cell
equal to the empty marker decodes to the empty collection of the
declared kind; any other (non-unset) aggregate cell is split on the
set separator, each piece decoded with the element type, preserving
split order for `vector` and collapsing duplicates for `set` (the set
is represented by its deduplicated element list).  In particular, with
set separator `,`, a `vector[count]` cell `1,2,3` decodes to the
ordered sequence `[1, 2, 3]`, and a `set[string]` cell `a,b,a` to the
two-element set of `a` and `b`. -/
theorem claim2_aggregate_decomposition (r : Reader)
    (u e ss t kind sub v : String)
    (hdec : r.decompose_aggregate = true)
    (hu : pyDictGet r.metadata "unset_field" = some (.str u))
    (he : pyDictGet r.metadata "empty_field" = some (.str e))
    (hss : pyDictGet r.metadata "set_separator" = some (.str ss))
    (hssne : ss ≠ "")
    (hagg : aggMatch t = some (kind, sub))
    (hkind : kind = "set" ∨ kind = "vector")
    (hvu : v ≠ u) :
    (v = e → castValue r v t =
        .ok (if kind = "set" then .set [] else .vec []))
    ∧ (v ≠ e → castValue r v t =
        match exceptMapList (fun p => castElem r p sub) (pySplit v ss) with
        | .ok l => .ok (if kind = "set" then .set l.dedup else .vec l)
        | .error er => .error er)
    ∧ castValue sampleReader "1,2,3" "vector[count]" =
        .ok (.vec [.int 1, .int 2, .int 3])
    ∧ castValue sampleReader "a,b,a" "set[string]" =
        .ok (.set ([Scalar.str "a", .str "b", .str "a"].dedup)) := by
  have hm : mvalEqStr (.str u) v = false := by
    simp [mvalEqStr]
    exact hvu
  refine ⟨?_, ?_, by decide, by decide⟩
  · intro hve
    have hme : mvalEqStr (.str e) v = true := by
      simp [mvalEqStr, hve]
    unfold castValue
    rw [getAttr_eq r "unset_field" (.str u) hu]
    simp only [Bind.bind, Except.bind, hm, Bool.false_eq_true, if_false,
      hagg, hdec, if_true]
    rw [getAttr_eq r "empty_field" (.str e) he]
    simp only [Bind.bind, Except.bind, hme, if_true]
    rcases hkind with rfl | rfl <;> decide
  · intro hve
    have hme : mvalEqStr (.str e) v = false := by
      simp [mvalEqStr]
      exact hve
    unfold castValue
    rw [getAttr_eq r "unset_field" (.str u) hu]
    simp only [Bind.bind, Except.bind, hm, Bool.false_eq_true, if_false,
      hagg, hdec, if_true]
    rw [getAttr_eq r "empty_field" (.str e) he]
    simp only [Bind.bind, Except.bind, hme, Bool.false_eq_true, if_false]
    rcases hkind with rfl | rfl <;>
      · simp only [AGGREGATE_TYPES]
        rw [getAttr_eq r "set_separator" (.str ss) hss]
        simp only [Bind.bind, Except.bind]
        rw [if_neg hssne]
        cases hmap : exceptMapList (fun p => castElem r p sub)
            (pySplit v ss) with
        | ok l => simp [hmap]
        | error er => simp [hmap]

theorem claim2_witness :
    castValue sampleReader "1,2,3" "vector[count]" =
      .ok (.vec [.int 1, .int 2, .int 3]) :=
  (claim2_aggregate_decomposition sampleReader "-" "(empty)" ","
    "vector[count]" "vector" "count" "1,2,3" rfl (by decide) (by decide)
    (by decide) (by decide) (by decide) (Or.inr rfl) (by decide)).2.2.1

/-- C8: with aggregate decomposition disabled at construction, any
aggregate-typed cell other than the unset marker is returned
byte-for-byte as the original string (the empty marker included, since
the passthrough happens before the empty check), while the unset marker
still decodes to null. -/
theorem claim8_raw_passthrough (r : Reader) (u t kind sub : String)
    (hdec : r.decompose_aggregate = false)
    (hu : pyDictGet r.metadata "unset_field" = some (.str u))
    (hagg : aggMatch t = some (kind, sub)) :
    (∀ v, v ≠ u → castValue r v t = .ok (.scalar (.str v)))
    ∧ castValue r u t = .ok (.scalar .null) := by
  constructor
  · intro v hvu
    have hm : mvalEqStr (.str u) v = false := by
      simp [mvalEqStr]
      exact hvu
    unfold castValue
    rw [getAttr_eq r "unset_field" (.str u) hu]
    simp only [Bind.bind, Except.bind, hm, Bool.false_eq_true, if_false,
      hagg, hdec]
  · unfold castValue
    rw [getAttr_eq r "unset_field" (.str u) hu]
    simp [Bind.bind, Except.bind, mvalEqStr]

theorem claim8_witness :
    castValue sampleRawReader "(empty)" "set[count]" =
      .ok (.scalar (.str "(empty)")) :=
  (claim8_raw_passthrough sampleRawReader "-" "set[count]" "set" "count"
    rfl (by decide) (by decide)).1 "(empty)" (by decide)

/-- C6: a metadata line whose directive key is `separator` or
`set_separator` and whose (single-token) value unescapes to `u` fails
with a `BroLogFormatError` whenever `u` is not exactly one character;
when `u` is exactly one character, the stored separator becomes that
character and the line yields nothing. -/
theorem claim6_separator_directive (r : Reader) (sep line key v : String)
    (hsep : pyDictGet r.metadata "separator" = some (.str sep))
    (hsepne : sep ≠ "")
    (hline : startsWithHash line = true)
    (hsplit : pySplit (rstripNewline (lstripHash line)) sep = [key, v])
    (hkey : key = "separator" ∨ key = "set_separator") :
    (∀ uesc, pyUnicodeEscape v = some uesc → uesc.length ≠ 1 →
      processLine r line = .error (.formatError ("\"" ++ pyRepr uesc ++
        "\" is not a valid separator")))
    ∧ (∀ uesc, pyUnicodeEscape v = some uesc → uesc.length = 1 →
      processLine r line =
        .ok ({ r with metadata := pyDictSet r.metadata key (.str uesc) },
          none)) := by
  have hsepstr : r.getSeparatorStr = .ok sep := by
    unfold Reader.getSeparatorStr
    rw [getAttr_eq r "separator" (.str sep) hsep]
    simp [Bind.bind, Except.bind, hsepne]
  constructor
  · intro uesc hesc hlen
    unfold processLine
    simp only [hline, if_true, hsepstr, Bind.bind, Except.bind, hsplit,
      maybe_singleton, metaPostProcess, if_pos hkey, hesc, if_pos hlen]
  · intro uesc hesc hlen
    have hlen' : ¬ uesc.length ≠ 1 := fun h => h hlen
    unfold processLine
    simp only [hline, if_true, hsepstr, Bind.bind, Except.bind, hsplit,
      maybe_singleton, metaPostProcess, if_pos hkey, hesc, if_neg hlen']

theorem claim6_witness :
    processLine (Reader.init true) "#separator \\x09" =
      .ok ({ Reader.init true with
        metadata := pyDictSet (Reader.init true).metadata "separator"
          (.str "\t") }, none) :=
  (claim6_separator_directive (Reader.init true) " " "#separator \\x09"
    "separator" "\\x09" (by decide) (by decide) (by decide) (by decide)
    (Or.inl rfl)).2 "\t" (by decide) (by decide)

/-- C7: every line is split with the separator in effect before it is
processed.  First, generally: the records a prefix of the input produces
are fixed by the state before that prefix — appending further lines
(separator directives included) only appends further records, never
changing earlier ones.  Second, concretely: a `#separator ,` directive
line is itself split with the previous separator (space), and only the
data line after it is split on `,`. -/
theorem claim7_separator_change_prospective :
    (∀ (ls1 : List String) (r r1 : Reader) (ls2 : List String)
      (recs1 : List Record),
      runLines r ls1 = .ok (r1, recs1) →
      runLines r (ls1 ++ ls2) =
        (runLines r1 ls2).map (fun p => (p.1, recs1 ++ p.2)))
    ∧ runLines (Reader.init true)
        ["#fields a b", "#types string string", "#unset_field -",
         "x y", "#separator ,", "p q,r s"] =
      .ok (⟨[("separator", .str ","), ("fields", .strs ["a", "b"]),
             ("types", .strs ["string", "string"]),
             ("unset_field", .str "-")], true⟩,
        [[("a", .scalar (.str "x")), ("b", .scalar (.str "y"))],
         [("a", .scalar (.str "p q")), ("b", .scalar (.str "r s"))]]) := by
  constructor
  · intro ls1
    induction ls1 with
    | nil =>
        intro r r1 ls2 recs1 h
        simp only [runLines] at h
        injection h with h2
        injection h2 with ha hb
        subst ha
        subst hb
        cases hrun : runLines r ls2 <;> simp [Except.map, hrun]
    | cons l ls ih =>
        intro r r1 ls2 recs1 h
        cases hp : processLine r l with
        | error e =>
            rw [runLines] at h
            simp [hp, Bind.bind, Except.bind] at h
        | ok pr =>
            obtain ⟨ra, rec0⟩ := pr
            rw [runLines] at h
            simp only [hp, Bind.bind, Except.bind] at h
            cases hr : runLines ra ls with
            | error e => rw [hr] at h; simp at h
            | ok pr2 =>
                obtain ⟨r2, recs⟩ := pr2
                rw [hr] at h
                simp only [Except.ok.injEq, Prod.mk.injEq] at h
                obtain ⟨hr2, hrecs⟩ := h
                subst hr2
                subst hrecs
                show runLines r (l :: (ls ++ ls2)) = _
                rw [runLines]
                simp only [hp, Bind.bind, Except.bind]
                rw [ih ra _ ls2 recs hr]
                cases hfin : runLines r2 ls2 <;>
                  simp [hfin, Except.map, List.append_assoc]
  · decide

theorem claim7_witness :
    runLines (Reader.init true) (["#unset_field -"] ++ ["#fields a b"]) =
      (runLines ⟨[("separator", .str " "), ("unset_field", .str "-")],
        true⟩ ["#fields a b"]).map
        (fun p => (p.1, ([] : List Record) ++ p.2)) :=
  claim7_separator_change_prospective.1 ["#unset_field -"]
    (Reader.init true)
    ⟨[("separator", .str " "), ("unset_field", .str "-")], true⟩
    ["#fields a b"] [] (by decide)

/-- The reader state after `#fields a b` and a bare `#types` directive:
`types` is stored as the empty tuple and `unset_field` was never set. -/
def bareTypesReader : Reader :=
  ⟨[("separator", .str " "), ("fields", .strs ["a", "b"]),
    ("types", .strs [])], true⟩

/-- C9, as stated, is false: with `fields` and (an empty) `types` parsed
but `unset_field` never set, the data line `x y` zips no cell with a
type, so no metadata lookup fails and the reader silently yields the
empty record instead of raising. -/
theorem claim9_counterexample :
    pyDictGet bareTypesReader.metadata "unset_field" = none
    ∧ processLine bareTypesReader "x y" =
        .ok (bareTypesReader, some ([] : Record))
    ∧ runLines (Reader.init true) ["#fields a b", "#types", "x y"] =
        .ok (bareTypesReader, [([] : Record)]) := by
  decide

/-- C9 amended: a data line before the `types` directive raises
`KeyError('types')`; with a nonempty `types` tuple but no `unset_field`,
the first cell's cast raises `AttributeError('unset_field')`; with a
nonempty `types` tuple and `unset_field` set but no `fields`, the line
raises some error (an `AttributeError('fields')` when every cast
succeeds, the cast's own error otherwise).  In each of these cases no
record is yielded.  The exception the counterexample exhibits: a
`types` directive parsed as the empty tuple yields an empty record
silently. -/
theorem claim9_amended_premature_data_line (r : Reader) (line s : String)
    (hline : startsWithHash line = false)
    (hsep : pyDictGet r.metadata "separator" = some (.str s))
    (hsne : s ≠ "") :
    (pyDictGet r.metadata "types" = none →
      processLine r line = .error (.keyError "types"))
    ∧ (∀ t0 ts, pyDictGet r.metadata "types" = some (.strs (t0 :: ts)) →
        pyDictGet r.metadata "unset_field" = none →
        processLine r line = .error (.attributeError "unset_field"))
    ∧ (∀ t0 ts m, pyDictGet r.metadata "types" = some (.strs (t0 :: ts)) →
        pyDictGet r.metadata "unset_field" = some m →
        pyDictGet r.metadata "fields" = none →
        ∃ err, processLine r line = .error err) := by
  have hsepstr : r.getSeparatorStr = .ok s := by
    unfold Reader.getSeparatorStr
    rw [getAttr_eq r "separator" (.str s) hsep]
    simp [Bind.bind, Except.bind, hsne]
  refine ⟨?_, ?_, ?_⟩
  · intro ht
    unfold processLine
    simp only [hline, Bool.false_eq_true, if_false, hsepstr, Bind.bind,
      Except.bind, ht]
  · intro t0 ts ht hun
    obtain ⟨v0, vs, hv⟩ :=
      List.exists_cons_of_ne_nil (pySplit_ne_nil (rstripNewline line) s)
    have hc : castValue r v0 t0 = .error (.attributeError "unset_field") := by
      unfold castValue
      rw [getAttr_none r "unset_field" hun]
      rfl
    have hcv : castValues r (pySplit (rstripNewline line) s) (t0 :: ts) =
        .error (.attributeError "unset_field") := by
      rw [hv]
      unfold castValues
      rw [List.zip_cons_cons]
      rw [exceptMapList]
      simp [hc, Bind.bind, Except.bind]
    unfold processLine
    simp only [hline, Bool.false_eq_true, if_false, hsepstr, Bind.bind,
      Except.bind, ht, mvalToIter, hcv]
  · intro t0 ts m ht hm hf
    cases hcv : castValues r (pySplit (rstripNewline line) s)
        (t0 :: ts) with
    | error e =>
        refine ⟨e, ?_⟩
        unfold processLine
        simp only [hline, Bool.false_eq_true, if_false, hsepstr, Bind.bind,
          Except.bind, ht, mvalToIter, hcv]
    | ok ds =>
        refine ⟨.attributeError "fields", ?_⟩
        unfold processLine
        simp only [hline, Bool.false_eq_true, if_false, hsepstr, Bind.bind,
          Except.bind, ht, mvalToIter, hcv,
          getAttr_none r "fields" hf]

theorem claim9_witness :
    processLine (Reader.init true) "x" = .error (.keyError "types") :=
  (claim9_amended_premature_data_line (Reader.init true) "x" " "
    (by decide) (by decide) (by decide)).1 (by decide)

/-- The reader state after a `#types string` directive declaring exactly
one type: `maybe_singleton` stores it as the bare string, not a tuple. -/
def singletonTypeReader : Reader :=
  ⟨[("separator", .str " "), ("unset_field", .str "-"),
    ("types", .str "string"), ("fields", .strs ["a", "b"])], true⟩

/-- C10, as stated, is false when exactly one type was declared: the
stored `types` is then the bare string `string`, `zip` iterates over its
characters, and the two-cell data line `x y` (2 cells against 1 declared
type, so the counts differ) raises `KeyError('s')` instead of raising no
error and yielding a min-length record. -/
theorem claim10_counterexample :
    pyDictGet singletonTypeReader.metadata "types" =
      some (.str "string")
    ∧ (pySplit "x y" " ").length = 2
    ∧ processLine singletonTypeReader "x y" = .error (.keyError "s") := by
  decide

/-- C10 amended: when `fields` and `types` are both stored as tuples
(their directives had zero or at least two tokens) and every zipped cell
decodes, a data line whose cell count differs from the declared counts
raises no error: the cells are zipped against the types and the field
names against the decoded values, so the record holds exactly
`min(#cells, #types, #fields)` entries when the field names are
distinct, and a duplicated field name collapses to one key holding the
last positional value.  (When exactly one type or field was declared,
`maybe_singleton` stores a bare string and `zip` iterates its
characters instead — the counterexample's behaviour.) -/
theorem claim10_amended_zip_truncation (r : Reader) (line s : String)
    (ts fs : List String) (ds : List Value)
    (hline : startsWithHash line = false)
    (hsep : pyDictGet r.metadata "separator" = some (.str s))
    (hsne : s ≠ "")
    (hts : pyDictGet r.metadata "types" = some (.strs ts))
    (hfs : pyDictGet r.metadata "fields" = some (.strs fs))
    (hcast : castValues r (pySplit (rstripNewline line) s) ts = .ok ds) :
    processLine r line = .ok (r, some (pyDictOfPairs (fs.zip ds)))
    ∧ ds.length = min (pySplit (rstripNewline line) s).length ts.length
    ∧ (fs.Nodup → (pyDictOfPairs (fs.zip ds)).length =
        min (min (pySplit (rstripNewline line) s).length ts.length)
          fs.length)
    ∧ (∀ k, pyDictGet (pyDictOfPairs (fs.zip ds)) k =
        ((fs.zip ds).filter (fun p => p.1 == k)).getLast?.map
          (fun p => p.2)) := by
  have hsepstr : r.getSeparatorStr = .ok s := by
    unfold Reader.getSeparatorStr
    rw [getAttr_eq r "separator" (.str s) hsep]
    simp [Bind.bind, Except.bind, hsne]
  have hlen : ds.length =
      min (pySplit (rstripNewline line) s).length ts.length := by
    have h1 := exceptMapList_length _ _ _ hcast
    rw [List.length_zip] at h1
    exact h1
  refine ⟨?_, hlen, ?_, ?_⟩
  · unfold processLine
    simp only [hline, Bool.false_eq_true, if_false, hsepstr, Bind.bind,
      Except.bind, hts, mvalToIter, hcast,
      getAttr_eq r "fields" (.strs fs) hfs]
  · intro hnd
    have hkeys : ((fs.zip ds).map Prod.fst).Nodup := by
      rw [map_fst_zip_eq_take]
      exact hnd.sublist (List.take_sublist _ _)
    rw [pyDictOfPairs_of_nodup _ hkeys, List.length_zip, hlen]
    omega
  · exact fun k => pyDictGet_pyDictOfPairs _ k

/-- Three declared fields, two declared types, four cells: the record
keeps `min(4, 2, 3) = 2` entries and no error is raised. -/
def mismatchReader : Reader :=
  ⟨[("separator", .str " "), ("unset_field", .str "-"),
    ("types", .strs ["string", "string"]),
    ("fields", .strs ["a", "b", "c"])], true⟩

theorem claim10_witness :
    processLine mismatchReader "x y z w" =
      .ok (mismatchReader, some (pyDictOfPairs
        ((["a", "b", "c"] : List String).zip
          [Value.scalar (.str "x"), Value.scalar (.str "y")]))) :=
  (claim10_amended_zip_truncation mismatchReader "x y z w" " "
    ["string", "string"] ["a", "b", "c"]
    [Value.scalar (.str "x"), Value.scalar (.str "y")]
    (by decide) (by decide) (by decide) (by decide) (by decide)
    (by decide)).1

end BroTools
